import Mathlib

/-!
Formal model of the doc-search worker (`src/index.ts`, `src/auth.ts`) and the
two-table schema (`files`, `file_tags`).  Program strings are embedded as lists
of characters; the D1 database is a pair of row lists; the R2 bucket is an
association list.  SQL `LIKE` (default, ASCII-case-insensitive, `%`/`_`
wildcards, no ESCAPE) is modelled by `likeMatch`; JavaScript string helpers
(`trim`, `toLowerCase`, `split`) are modelled character-wise.
-/

namespace DocSearch

/-- Program strings are modelled as lists of characters. -/
abbrev Str := List Char

/-- JS `toLowerCase` respectively the ASCII case folding applied by the
store's default `LIKE` collation, modelled with Lean's ASCII `Char.toLower`. -/
def lowerStr (s : Str) : Str := s.map Char.toLower

/-- JS `String.prototype.trim`: strip leading and trailing whitespace. -/
def trimStr (s : Str) : Str :=
  ((s.dropWhile Char.isWhitespace).reverse.dropWhile Char.isWhitespace).reverse

/-- Case-insensitive comparison of one pattern character with one subject
character, as performed by the store's default `LIKE`. -/
def charLikeEq (p c : Char) : Bool := p.toLower == c.toLower

/-- SQL `LIKE`: `likeMatch pat s` decides whether subject `s` matches pattern
`pat`, where `%` matches any sequence and `_` any single character. -/
def likeMatch : Str → Str → Bool
  | [], s => s.isEmpty
  | p :: ps, s =>
    if p = '%' then
      (List.range (s.length + 1)).any (fun k => likeMatch ps (s.drop k))
    else
      match s with
      | [] => false
      | c :: s2 => if p = '_' then likeMatch ps s2 else (charLikeEq p c && likeMatch ps s2)

/-- The handlers all build the pattern `"%" + q + "%"` around the raw query. -/
def likeContains (q s : Str) : Bool := likeMatch ('%' :: (q ++ ['%'])) s

/-- The query carries no `LIKE` wildcard characters. -/
def noWild (q : Str) : Bool := q.all (fun c => !(c == '%' || c == '_'))

/-- `s` contains `q` as a substring up to the store's ASCII case folding. -/
def SubstrCI (q s : Str) : Prop := ∃ u v w, s = u ++ v ++ w ∧ lowerStr v = lowerStr q

theorem likeMatch_nil (s : Str) : likeMatch [] s = s.isEmpty := rfl

theorem likeMatch_pct (ps s : Str) :
    likeMatch ('%' :: ps) s = (List.range (s.length + 1)).any (fun k => likeMatch ps (s.drop k)) := by
  simp [likeMatch]

theorem likeMatch_lit_nil {p : Char} (hp : p ≠ '%') (ps : Str) :
    likeMatch (p :: ps) [] = false := by
  simp [likeMatch, hp]

theorem likeMatch_lit_cons {p : Char} (hp1 : p ≠ '%') (hp2 : p ≠ '_') (ps : Str)
    (c : Char) (s : Str) :
    likeMatch (p :: ps) (c :: s) = (charLikeEq p c && likeMatch ps s) := by
  simp [likeMatch, hp1, hp2]

theorem likeMatch_pct_iff (ps s : Str) :
    likeMatch ('%' :: ps) s = true ↔ ∃ s1 s2, s = s1 ++ s2 ∧ likeMatch ps s2 = true := by
  rw [likeMatch_pct]
  simp only [List.any_eq_true, List.mem_range]
  constructor
  · rintro ⟨k, _, h⟩
    exact ⟨s.take k, s.drop k, (List.take_append_drop k s).symm, h⟩
  · rintro ⟨s1, s2, rfl, h⟩
    refine ⟨s1.length, ?_, ?_⟩
    · simp [Nat.lt_succ_iff]
    · simpa [List.drop_left] using h

theorem noWild_cons {p : Char} {ps : Str} (h : noWild (p :: ps) = true) :
    (p ≠ '%' ∧ p ≠ '_') ∧ noWild ps = true := by
  simp only [noWild, List.all_cons, Bool.and_eq_true, Bool.not_eq_true',
    Bool.or_eq_false_iff, beq_eq_false_iff_ne, ne_eq] at h
  exact ⟨h.1, h.2⟩

theorem likeMatch_lit_iff {q : Str} (s : Str) (hq : noWild q = true) :
    likeMatch q s = true ↔ lowerStr q = lowerStr s := by
  induction q generalizing s with
  | nil =>
    cases s <;> simp [likeMatch_nil, lowerStr]
  | cons p ps ih =>
    obtain ⟨⟨hp1, hp2⟩, hps⟩ := noWild_cons hq
    cases s with
    | nil => simp [likeMatch_lit_nil hp1, lowerStr]
    | cons c s2 =>
      rw [likeMatch_lit_cons hp1 hp2]
      simp only [Bool.and_eq_true, charLikeEq, beq_iff_eq, lowerStr, List.map_cons,
        List.cons.injEq, ih s2 hps]

theorem likeMatch_trail_iff {q : Str} (s : Str) (hq : noWild q = true) :
    likeMatch (q ++ ['%']) s = true ↔ ∃ s1 s2, s = s1 ++ s2 ∧ lowerStr s1 = lowerStr q := by
  induction q generalizing s with
  | nil =>
    simp only [List.nil_append]
    rw [likeMatch_pct_iff]
    constructor
    · rintro ⟨s1, s2, rfl, _⟩
      exact ⟨[], s1 ++ s2, rfl, rfl⟩
    · rintro ⟨s1, s2, rfl, _⟩
      exact ⟨s1 ++ s2, [], by simp, rfl⟩
  | cons p ps ih =>
    obtain ⟨⟨hp1, hp2⟩, hps⟩ := noWild_cons hq
    cases s with
    | nil =>
      rw [List.cons_append, likeMatch_lit_nil hp1]
      simp only [Bool.false_eq_true, false_iff]
      rintro ⟨s1, s2, hs, h⟩
      rcases s1 with _ | ⟨d, s1⟩
      · simp [lowerStr] at h
      · simp at hs
    | cons c s2 =>
      rw [List.cons_append, likeMatch_lit_cons hp1 hp2]
      constructor
      · rintro h
        rw [Bool.and_eq_true] at h
        obtain ⟨s1, s2', rfl, h1⟩ := (ih s2 hps).mp h.2
        refine ⟨c :: s1, s2', rfl, ?_⟩
        have hc : p.toLower = c.toLower := by
          have := h.1; simpa [charLikeEq] using this
        simp [lowerStr, hc, h1.symm]
        simpa [lowerStr] using h1
      · rintro ⟨s1, s2', hs, h⟩
        rcases s1 with _ | ⟨d, s1⟩
        · simp [lowerStr] at h
        · rw [List.cons_append, List.cons.injEq] at hs
          obtain ⟨rfl, rfl⟩ := hs
          simp only [lowerStr, List.map_cons, List.cons.injEq] at h
          rw [Bool.and_eq_true]
          constructor
          · simp [charLikeEq, h.1]
          · exact (ih _ hps).mpr ⟨s1, s2', rfl, h.2⟩

theorem likeContains_iff {q : Str} (s : Str) (hq : noWild q = true) :
    likeContains q s = true ↔ SubstrCI q s := by
  unfold likeContains SubstrCI
  rw [likeMatch_pct_iff]
  constructor
  · rintro ⟨s1, s2, rfl, h⟩
    rw [likeMatch_trail_iff s2 hq] at h
    obtain ⟨v, w, rfl, hv⟩ := h
    exact ⟨s1, v, w, by simp, hv⟩
  · rintro ⟨u, v, w, rfl, hv⟩
    exact ⟨u, v ++ w, by simp, (likeMatch_trail_iff _ hq).mpr ⟨v, w, rfl, hv⟩⟩

theorem likeContains_nil (s : Str) : likeContains [] s = true :=
  (likeContains_iff (q := []) s (by rfl)).mpr ⟨[], [], s, rfl, rfl⟩

/-!  Data model: the D1 schema (`files`, `file_tags`) and the R2 bucket. -/

/-- One row of the `files` table
(`id TEXT PRIMARY KEY, filename TEXT, r2_key TEXT, size INTEGER, created_at INTEGER`). -/
structure FileRow where
  id : Str
  filename : Str
  r2_key : Str
  size : Nat
  created_at : Nat
deriving DecidableEq

/-- One row of the `file_tags` table (`file_id TEXT, tag TEXT`, composite
primary key `(file_id, tag)`). -/
structure TagRow where
  file_id : Str
  tag : Str
deriving DecidableEq

/-- The D1 database: the two tables as row lists. -/
structure DB where
  files : List FileRow
  tags : List TagRow
deriving DecidableEq

/-- A stored R2 object: its byte stream and the `httpMetadata` content type
(`[]` models both an absent and an empty content type, which JavaScript's
falsy check `object.httpMetadata?.contentType || ...` treats alike). -/
structure Blob where
  body : Str
  contentType : Str
deriving DecidableEq

/-- The R2 bucket, keyed by `r2_key`. -/
abbrev Bucket := List (Str × Blob)

/-- `BUCKET.get(key)`. -/
def bucketGet (b : Bucket) (k : Str) : Option Blob :=
  match b.find? (fun p => p.1 == k) with
  | none => none
  | some p => some p.2

/-- `BUCKET.put(key, stream, {httpMetadata})`: overwrite the object at `key`. -/
def bucketPut (b : Bucket) (k : Str) (blob : Blob) : Bucket :=
  (b.filter (fun p => !(p.1 == k))) ++ [(k, blob)]

/-- `BUCKET.delete(key)`. -/
def bucketDelete (b : Bucket) (k : Str) : Bucket :=
  b.filter (fun p => !(p.1 == k))

/-- `SELECT ... FROM files WHERE id = ? ... .first()`. -/
def findFile (db : DB) (id : Str) : Option FileRow :=
  db.files.find? (fun f => f.id == id)

/-- The tags of the rows of `file_tags` whose `file_id` is `fid`, in row order. -/
def fidTags (tags : List TagRow) (fid : Str) : List Str :=
  (tags.filter (fun r => r.file_id == fid)).map (fun r => r.tag)

/-- The stored tag set of file `fid`: `SELECT tag FROM file_tags WHERE file_id = fid`. -/
def tagsOf (db : DB) (fid : Str) : List Str := fidTags db.tags fid

/-!  Auth resolver (`src/auth.ts`). -/

/-- The three trust levels of `enum AuthLevel { GUEST = 0, TEAM = 1, ADMIN = 2 }`. -/
inductive AuthLevel where
  | GUEST
  | TEAM
  | ADMIN
deriving DecidableEq

/-- The numeric value of each enum member. -/
def AuthLevel.toNat : AuthLevel → Nat
  | .GUEST => 0
  | .TEAM => 1
  | .ADMIN => 2

/-- The JavaScript comparison `a < b` on the numeric enum. -/
def authLT (a b : AuthLevel) : Bool := a.toNat < b.toNat

/-- The JavaScript comparison `a >= b` on the numeric enum. -/
def authGE (a b : AuthLevel) : Bool := b.toNat ≤ a.toNat

/-- The configured secrets (worker bindings `TEAM_PASSWORD`, `ADMIN_PASSWORD`). -/
structure Env where
  TEAM_PASSWORD : Str
  ADMIN_PASSWORD : Str
deriving DecidableEq

/-- `checkAuth`: resolve the `doc_auth` cookie value (absent cookie modelled as
`none`; JS `undefined === password` is `false`) to a trust level. -/
def checkAuth (env : Env) (token : Option Str) : AuthLevel :=
  if token = some env.ADMIN_PASSWORD then .ADMIN
  else if token = some env.TEAM_PASSWORD then .TEAM
  else .GUEST

/-!  Search pipeline (`GET /api/search`). -/

/-- The SQL `WHERE` clause of the search query:
`f.filename LIKE ? OR EXISTS (SELECT 1 FROM file_tags WHERE file_id = f.id AND tag LIKE ?)`
with both placeholders bound to the pattern built around the raw query. -/
def searchWhere (db : DB) (q : Str) (f : FileRow) : Bool :=
  likeContains q f.filename || db.tags.any (fun r => r.file_id == f.id && likeContains q r.tag)

/-- The comparison `ORDER BY created_at DESC` sorts by. -/
def createdDesc (a b : FileRow) : Prop := b.created_at ≤ a.created_at

instance : DecidableRel createdDesc := fun a b => Nat.decLe b.created_at a.created_at

instance : IsTotal FileRow createdDesc :=
  ⟨fun a b => Nat.le_total b.created_at a.created_at⟩

instance : IsTrans FileRow createdDesc :=
  ⟨fun _ _ _ hab hbc => Nat.le_trans hbc hab⟩

/-- `ORDER BY f.created_at DESC` (tie order is unspecified in SQL; the model
fixes a stable insertion sort). -/
def sortByCreatedDesc (l : List FileRow) : List FileRow :=
  l.insertionSort createdDesc

/-- `GROUP_CONCAT`'s comma joining of a row group. -/
def intercalComma : List Str → Str
  | [] => []
  | [t] => t
  | t :: u :: ts => t ++ ',' :: intercalComma (u :: ts)

/-- `(SELECT GROUP_CONCAT(tag) FROM file_tags WHERE file_id = f.id)`:
`NULL` (`none`) on an empty group, else the comma-joined tags. -/
def groupConcat (l : List Str) : Option Str :=
  match l with
  | [] => none
  | _ => some (intercalComma l)

/-- JavaScript `s.split(',')`. -/
def splitComma : Str → List Str
  | [] => [[]]
  | c :: rest =>
    if c = ',' then [] :: splitComma rest
    else
      match splitComma rest with
      | [] => [[c]]
      | t :: ts => (c :: t) :: ts

/-- The handler's row formatting
`row.tags_str ? row.tags_str.split(',') : []` (both SQL `NULL` and the empty
string are falsy). -/
def rowTags : Option Str → List Str
  | none => []
  | some s => if s = [] then [] else splitComma s

/-- One element of the JSON array returned by `GET /api/search`. -/
structure SearchRow where
  id : Str
  filename : Str
  size : Nat
  created_at : Nat
  tags : List Str
deriving DecidableEq

/-- The `SELECT` projection plus the handler's formatting for one file row:
its scalar columns, and the file's comma-aggregated tag group split back on
commas. -/
def toSearchRow (db : DB) (f : FileRow) : SearchRow :=
  { id := f.id, filename := f.filename, size := f.size, created_at := f.created_at,
    tags := rowTags (groupConcat (tagsOf db f.id)) }

/-- The formatted result list of `GET /api/search` for query `q`:
filter by the `WHERE` clause, `ORDER BY created_at DESC`, `LIMIT 50`,
aggregate every file's full tag group, split the aggregate on commas. -/
def searchResults (db : DB) (q : Str) : List SearchRow :=
  (((db.files.filter (searchWhere db q)).insertionSort createdDesc).take 50).map
    (toSearchRow db)

/-- Response of `GET /api/search`. -/
inductive SearchResp where
  | unauthorized
  | ok (rows : List SearchRow)
deriving DecidableEq

/-- The `GET /api/search` handler: a cookie resolving below `TEAM` is refused
with 401, otherwise the formatted results are returned. -/
def searchEndpoint (env : Env) (db : DB) (cookie : Option Str) (q : Str) : SearchResp :=
  if authLT (checkAuth env cookie) .TEAM then .unauthorized
  else .ok (searchResults db q)

/-!  File delivery (`GET /api/file/:id`). -/

/-- Response of `GET /api/file/:id`. -/
inductive FileResp where
  | unauthorized
  | cached (body : Str)
  | notFound
  | ok (body : Str) (contentType : Str) (filename : Str)
deriving DecidableEq

/-- The content type fallback `object.httpMetadata?.contentType || 'application/octet-stream'`. -/
def octetStream : Str := "application/octet-stream".toList

/-- The `GET /api/file/:id` handler.  Authorization accepts a cookie at
`>= TEAM` or `?token=` equal to the team secret; then the shared edge cache is
consulted (`cachedResponse` is the entry the cache holds for the request URL,
`none` on a miss); then the index row and the blob are resolved, each absence
answered with `c.notFound()`.  The fire-and-forget `cache.put` does not change
the response and is not modelled. -/
def getFileEndpoint (env : Env) (db : DB) (bucket : Bucket) (cookie urlToken : Option Str)
    (cachedResponse : Option Str) (id : Str) : FileResp :=
  let isAuth :=
    if authGE (checkAuth env cookie) .TEAM then true
    else if urlToken = some env.TEAM_PASSWORD then true
    else false
  if !isAuth then .unauthorized
  else
    match cachedResponse with
    | some body => .cached body
    | none =>
      match findFile db id with
      | none => .notFound
      | some file =>
        match bucketGet bucket file.r2_key with
        | none => .notFound
        | some object =>
          .ok object.body (if object.contentType = [] then octetStream else object.contentType)
            file.filename

/-!  Tag insertion shared by upload and tag replacement. -/

/-- `INSERT OR IGNORE INTO file_tags (file_id, tag) VALUES (?, ?)`: a no-op
when the `(file_id, tag)` primary key is already present. -/
def insertOrIgnoreTag (tags : List TagRow) (fid t : Str) : List TagRow :=
  if tags.any (fun r => r.file_id == fid && r.tag == t) then tags else tags ++ [⟨fid, t⟩]

/-!  Upload (`POST /api/upload`). -/

/-- The multipart `file` field. -/
structure UploadFile where
  name : Str
  content : Str
  contentType : Str
  size : Nat
deriving DecidableEq

/-- Response of `POST /api/upload`. -/
inductive UploadResp where
  | forbidden
  | badRequest
  | ok
deriving DecidableEq

/-- JavaScript `s.split(/\s+/)` restricted to single-character separators:
splitting on every whitespace character.  The handler immediately drops empty
fragments, after which per-character splitting and per-run splitting agree. -/
def splitWS : Str → List Str
  | [] => [[]]
  | c :: rest =>
    if c.isWhitespace then [] :: splitWS rest
    else
      match splitWS rest with
      | [] => [[c]]
      | t :: ts => (c :: t) :: ts

/-- The `POST /api/upload` handler: requires `ADMIN`, requires a file field,
writes the blob under the fresh id, then runs one atomic D1 batch inserting
the file row and, lowercased, each whitespace-separated tag (`INSERT OR
IGNORE`).  The `files` primary key makes the batch fail as a whole on a
duplicate id, leaving D1 unchanged while the blob write already happened. -/
def uploadEndpoint (env : Env) (db : DB) (bucket : Bucket) (cookie : Option Str)
    (file : Option UploadFile) (tagsStr : Str) (fileId : Str) (now : Nat) :
    UploadResp × DB × Bucket :=
  if authLT (checkAuth env cookie) .ADMIN then (.forbidden, db, bucket)
  else
    match file with
    | none => (.badRequest, db, bucket)
    | some f =>
      let r2Key := fileId
      let bucket2 := bucketPut bucket r2Key ⟨f.content, f.contentType⟩
      let tags := (splitWS tagsStr).filter (fun t => !t.isEmpty)
      let db2 :=
        if db.files.any (fun g => g.id == fileId) then db
        else
          { files := db.files ++ [⟨fileId, f.name, r2Key, f.size, now⟩],
            tags := tags.foldl (fun acc t => insertOrIgnoreTag acc fileId (lowerStr t)) db.tags }
      (.ok, db2, bucket2)

/-!  Delete (`DELETE /api/file/:id`). -/

/-- Response of `DELETE /api/file/:id`. -/
inductive DeleteResp where
  | forbidden
  | ok
deriving DecidableEq

/-- The `DELETE /api/file/:id` handler: requires `ADMIN`; when the row exists,
deletes the blob, then the file's tag rows, then the file row; reports
success either way. -/
def deleteEndpoint (env : Env) (db : DB) (bucket : Bucket) (cookie : Option Str)
    (id : Str) : DeleteResp × DB × Bucket :=
  if authLT (checkAuth env cookie) .ADMIN then (.forbidden, db, bucket)
  else
    match findFile db id with
    | none => (.ok, db, bucket)
    | some file =>
      let bucket2 := bucketDelete bucket file.r2_key
      let db2 : DB :=
        { files := db.files.filter (fun f => !(f.id == id)),
          tags := db.tags.filter (fun r => !(r.file_id == id)) }
      (.ok, db2, bucket2)

/-!  Tag replacement (`PATCH /api/file/:id/tags`). -/

/-- Response of `PATCH /api/file/:id/tags`. -/
inductive PatchResp where
  | forbidden
  | badRequest
  | notFound
  | ok (tags : List Str)
deriving DecidableEq

/-- The handler's normalization
`tagsArray.map(t => String(t).trim().toLowerCase()).filter(t => t.length > 0)`
(the `String(t)` coercion is modelled by taking the elements as strings). -/
def sanitizeTags (tagsArray : List Str) : List Str :=
  (tagsArray.map (fun t => lowerStr (trimStr t))).filter (fun t => !t.isEmpty)

/-- The handler's D1 batch: `DELETE FROM file_tags WHERE file_id = ?` followed
by one `INSERT OR IGNORE` per sanitized tag, run atomically. -/
def applyTagBatch (db : DB) (fid : Str) (newTags : List Str) : DB :=
  { db with
    tags := newTags.foldl (fun acc t => insertOrIgnoreTag acc fid t)
      (db.tags.filter (fun r => !(r.file_id == fid))) }

/-- The `PATCH /api/file/:id/tags` handler: requires `ADMIN`; a body whose
`tags` field is not an array (`none`) is a 400; a missing file row is a 404;
otherwise the tag set is replaced and the sanitized list returned.  The
surrounding `try`/`catch` (500) only fires when a store call throws and is
unreachable in the pure model. -/
def patchTagsEndpoint (env : Env) (db : DB) (cookie : Option Str) (id : Str)
    (payload : Option (List Str)) : PatchResp × DB :=
  if authLT (checkAuth env cookie) .ADMIN then (.forbidden, db)
  else
    match payload with
    | none => (.badRequest, db)
    | some tagsArray =>
      match findFile db id with
      | none => (.notFound, db)
      | some _ =>
        let sanitizedTags := sanitizeTags tagsArray
        (.ok sanitizedTags, applyTagBatch db id sanitizedTags)

/-!  Notification bridge (`POST /api/telegram`). -/

/-- The `message` object of a Telegram update (`text` is absent or a string;
the empty string is falsy for the guard). -/
structure TgMessage where
  chatId : Int
  text : Option Str
deriving DecidableEq

/-- A Telegram update payload. -/
structure TgUpdate where
  message : Option TgMessage
deriving DecidableEq

/-- Response of `POST /api/telegram`: 200 `{ok:true}`, or 500 `{ok:false}`
from the `catch` block. -/
inductive TgResp where
  | okTrue
  | okFalse500
deriving DecidableEq

/-- The JavaScript guard `!message || !message.text` is false: the update has
a message with a nonempty text body. -/
def hasTextBody (u : TgUpdate) : Bool :=
  match u.message with
  | none => false
  | some m =>
    match m.text with
    | none => false
    | some t => !t.isEmpty

/-- The `POST /api/telegram` handler.  The fallible effects are passed as
outcomes: `parsed` is `c.req.json()` (`.error` = it threw), `searchRes` the D1
search (`LIMIT 10`, same matching as `/api/search`; its rows only feed the
reply text), `sendRes` the outbound `fetch` to the Telegram API (`.ok` = the
call completed, whatever its HTTP status; `.error` = it threw).  Any throw
lands in the `catch` block, which logs and returns 500 `{ok:false}`. -/
def telegramWebhook (parsed : Except Unit TgUpdate) (searchRes : Except Unit (List FileRow))
    (sendRes : Except Unit Unit) : TgResp :=
  match parsed with
  | .error _ => .okFalse500
  | .ok update =>
    match update.message with
    | none => .okTrue
    | some m =>
      match m.text with
      | none => .okTrue
      | some t =>
        if t.isEmpty then .okTrue
        else
          match searchRes with
          | .error _ => .okFalse500
          | .ok _ =>
            match sendRes with
            | .error _ => .okFalse500
            | .ok _ => .okTrue

/-!  Derived notions and concrete data used by the theorems below. -/

/-- The tags the `INSERT OR IGNORE` sequence actually inserts for a file,
given the tags `seen` already present for it. -/
def dedupAcc : List Str → List Str → List Str
  | [], _ => []
  | t :: ts, seen => if t ∈ seen then dedupAcc ts seen else t :: dedupAcc ts (seen ++ [t])

/-- The rows the `INSERT OR IGNORE` sequence appends for file `fid`. -/
def extraRows (fid : Str) : List Str → List Str → List TagRow
  | [], _ => []
  | t :: ts, seen =>
    if t ∈ seen then extraRows fid ts seen else ⟨fid, t⟩ :: extraRows fid ts (seen ++ [t])

/-- The schema's referential integrity: every `file_tags.file_id` references an
existing `files.id`. -/
def RefIntegrity (db : DB) : Prop := ∀ r ∈ db.tags, ∃ f ∈ db.files, f.id = r.file_id

instance (db : DB) : Decidable (RefIntegrity db) :=
  inferInstanceAs (Decidable (∀ r ∈ db.tags, ∃ f ∈ db.files, f.id = r.file_id))

/-- The spec's matching rule for one file: the filename contains the query as
a substring (under the store's case folding), or some tag of the file does. -/
def FileMatches (db : DB) (q : Str) (f : FileRow) : Prop :=
  SubstrCI q f.filename ∨ ∃ r ∈ db.tags, r.file_id = f.id ∧ SubstrCI q r.tag

/-- A concrete environment: team secret `team`, admin secret `admin`. -/
def envW : Env := ⟨"team".toList, "admin".toList⟩

/-- A one-file database used in witnesses. -/
def dbW : DB :=
  ⟨[⟨"f1".toList, "Report".toList, "f1".toList, 3, 5⟩], [⟨"f1".toList, "plan".toList⟩]⟩

/-- A database whose single file carries a tag containing a comma. -/
def dbC3 : DB :=
  ⟨[⟨"f1".toList, "doc".toList, "f1".toList, 1, 1⟩], [⟨"f1".toList, "a,b".toList⟩]⟩

/-- The single formatted row `GET /api/search` produces on `dbC3`. -/
def rowC3 : SearchRow :=
  ⟨"f1".toList, "doc".toList, 1, 1, ["a".toList, "b".toList]⟩

/-- The tag payload of the spec's normalization example. -/
def c2input : List Str := ["  Foo".toList, "foo".toList, "".toList]

/-- Running the tag-replace handler on that example as the admin. -/
def c2run : PatchResp × DB :=
  patchTagsEndpoint envW dbW (some "admin".toList) "f1".toList (some c2input)

/-!  Helper lemmas: the `file_tags` batch algebra. -/

theorem mem_fidTags {l : List TagRow} {fid t : Str} :
    t ∈ fidTags l fid ↔ ∃ r ∈ l, r.file_id = fid ∧ r.tag = t := by
  simp only [fidTags, List.mem_map, List.mem_filter, beq_iff_eq]
  constructor
  · rintro ⟨r, ⟨hr, hfid⟩, rfl⟩
    exact ⟨r, hr, hfid, rfl⟩
  · rintro ⟨r, hr, hfid, rfl⟩
    exact ⟨r, ⟨hr, hfid⟩, rfl⟩

theorem fidTags_append (a b : List TagRow) (fid : Str) :
    fidTags (a ++ b) fid = fidTags a fid ++ fidTags b fid := by
  simp [fidTags, List.filter_append]

theorem fidTags_filter_self (l : List TagRow) (fid : Str) :
    fidTags (l.filter (fun r => !(r.file_id == fid))) fid = [] := by
  simp only [fidTags, List.filter_filter, List.map_eq_nil_iff, List.filter_eq_nil_iff]
  intro r _
  cases h : r.file_id == fid <;> simp [h]

theorem anyTag_iff (l : List TagRow) (fid t : Str) :
    (l.any (fun r => r.file_id == fid && r.tag == t) = true) ↔ t ∈ fidTags l fid := by
  rw [mem_fidTags]
  simp [List.any_eq_true]

theorem fidTags_snoc (l : List TagRow) (fid t : Str) :
    fidTags (l ++ [⟨fid, t⟩]) fid = fidTags l fid ++ [t] := by
  rw [fidTags_append]
  simp [fidTags]

theorem foldl_insertOrIgnore (fid : Str) :
    ∀ (ts : List Str) (acc : List TagRow),
      ts.foldl (fun a t => insertOrIgnoreTag a fid t) acc
        = acc ++ extraRows fid ts (fidTags acc fid) := by
  intro ts
  induction ts with
  | nil => intro acc; simp [extraRows]
  | cons t ts ih =>
    intro acc
    rw [List.foldl_cons]
    by_cases hmem : t ∈ fidTags acc fid
    · have hins : insertOrIgnoreTag acc fid t = acc := by
        unfold insertOrIgnoreTag
        rw [if_pos ((anyTag_iff acc fid t).mpr hmem)]
      rw [hins, ih acc]
      simp only [extraRows, if_pos hmem]
    · have hins : insertOrIgnoreTag acc fid t = acc ++ [⟨fid, t⟩] := by
        unfold insertOrIgnoreTag
        rw [if_neg]
        intro h
        exact hmem ((anyTag_iff acc fid t).mp h)
      rw [hins, ih (acc ++ [({ file_id := fid, tag := t } : TagRow)]), fidTags_snoc]
      simp only [extraRows, if_neg hmem]
      simp [List.append_assoc]

theorem extraRows_file_id (fid : Str) :
    ∀ (ts seen : List Str), ∀ r ∈ extraRows fid ts seen, r.file_id = fid := by
  intro ts
  induction ts with
  | nil => intro seen r hr; simp [extraRows] at hr
  | cons t ts ih =>
    intro seen r hr
    rw [extraRows] at hr
    by_cases hmem : t ∈ seen
    · rw [if_pos hmem] at hr
      exact ih seen r hr
    · rw [if_neg hmem] at hr
      rcases List.mem_cons.mp hr with rfl | hr
      · rfl
      · exact ih (seen ++ [t]) r hr

theorem fidTags_extraRows (fid : Str) :
    ∀ (ts seen : List Str), fidTags (extraRows fid ts seen) fid = dedupAcc ts seen := by
  intro ts
  induction ts with
  | nil => intro seen; simp [extraRows, dedupAcc, fidTags]
  | cons t ts ih =>
    intro seen
    rw [extraRows, dedupAcc]
    by_cases hmem : t ∈ seen
    · rw [if_pos hmem, if_pos hmem, ih seen]
    · rw [if_neg hmem, if_neg hmem]
      have : (⟨fid, t⟩ :: extraRows fid ts (seen ++ [t]))
          = [⟨fid, t⟩] ++ extraRows fid ts (seen ++ [t]) := rfl
      rw [this, fidTags_append, ih (seen ++ [t])]
      simp [fidTags]

theorem mem_dedupAcc {t : Str} :
    ∀ (ts seen : List Str), t ∈ dedupAcc ts seen ↔ t ∈ ts ∧ t ∉ seen := by
  intro ts
  induction ts with
  | nil => intro seen; simp [dedupAcc]
  | cons u ts ih =>
    intro seen
    rw [dedupAcc]
    by_cases hmem : u ∈ seen
    · rw [if_pos hmem, ih seen]
      constructor
      · rintro ⟨h1, h2⟩; exact ⟨List.mem_cons_of_mem u h1, h2⟩
      · rintro ⟨h1, h2⟩
        rcases List.mem_cons.mp h1 with rfl | h1
        · exact absurd hmem h2
        · exact ⟨h1, h2⟩
    · rw [if_neg hmem]
      simp only [List.mem_cons, ih (seen ++ [u]), List.mem_append,
        List.mem_singleton]
      constructor
      · rintro (rfl | ⟨h1, h2⟩)
        · exact ⟨Or.inl rfl, hmem⟩
        · exact ⟨Or.inr h1, fun hs => h2 (Or.inl hs)⟩
      · rintro ⟨rfl | h1, h2⟩
        · exact Or.inl rfl
        · by_cases ht : t = u
          · exact Or.inl ht
          · exact Or.inr ⟨h1, by simp [h2, ht]⟩

theorem nodup_dedupAcc :
    ∀ (ts seen : List Str), (dedupAcc ts seen).Nodup := by
  intro ts
  induction ts with
  | nil => intro seen; simp [dedupAcc]
  | cons t ts ih =>
    intro seen
    rw [dedupAcc]
    by_cases hmem : t ∈ seen
    · rw [if_pos hmem]; exact ih seen
    · rw [if_neg hmem]
      refine List.Nodup.cons ?_ (ih (seen ++ [t]))
      intro hmem2
      have := (mem_dedupAcc ts (seen ++ [t])).mp hmem2
      simp at this

theorem tagsOf_applyTagBatch (db : DB) (fid : Str) (ts : List Str) :
    tagsOf (applyTagBatch db fid ts) fid = dedupAcc ts [] := by
  unfold tagsOf applyTagBatch
  rw [foldl_insertOrIgnore, fidTags_filter_self, fidTags_append, fidTags_filter_self,
    fidTags_extraRows]
  rfl

/-!  Helper lemmas: `GROUP_CONCAT` joining versus the handler's comma split. -/

theorem splitComma_no_comma :
    ∀ (t : Str), (',' : Char) ∉ t → splitComma t = [t] := by
  intro t
  induction t with
  | nil => intro _; rfl
  | cons c t ih =>
    intro h
    have hc : ¬ c = ',' := fun hc => h (hc ▸ List.mem_cons_self c t)
    rw [splitComma, if_neg hc, ih (fun hm => h (List.mem_cons_of_mem c hm))]

theorem splitComma_append_comma :
    ∀ (t s : Str), (',' : Char) ∉ t → splitComma (t ++ ',' :: s) = t :: splitComma s := by
  intro t
  induction t with
  | nil =>
    intro s _
    rw [List.nil_append, splitComma, if_pos rfl]
  | cons c t ih =>
    intro s h
    have hc : ¬ c = ',' := fun hc => h (hc ▸ List.mem_cons_self c t)
    rw [List.cons_append, splitComma, if_neg hc,
      ih s (fun hm => h (List.mem_cons_of_mem c hm))]

theorem splitComma_intercal :
    ∀ (l : List Str), l ≠ [] → (∀ t ∈ l, (',' : Char) ∉ t) →
      splitComma (intercalComma l) = l
  | [], h, _ => absurd rfl h
  | [t], _, hc => by
    rw [intercalComma, splitComma_no_comma t (hc t (List.mem_singleton_self t))]
  | t :: u :: ts, _, hc => by
    rw [intercalComma, splitComma_append_comma t _ (hc t (List.mem_cons_self t _)),
      splitComma_intercal (u :: ts) (List.cons_ne_nil u ts)
        (fun v hv => hc v (List.mem_cons_of_mem t hv))]

theorem groupConcat_cons (t : Str) (ts : List Str) :
    groupConcat (t :: ts) = some (intercalComma (t :: ts)) := rfl

theorem rowTags_some (s : Str) :
    rowTags (some s) = if s = [] then [] else splitComma s := rfl

theorem rowTags_groupConcat (l : List Str)
    (h : ∀ t ∈ l, t ≠ [] ∧ (',' : Char) ∉ t) :
    rowTags (groupConcat l) = l := by
  match l with
  | [] => rfl
  | [t] =>
    have ht := h t (List.mem_singleton_self t)
    rw [groupConcat_cons, rowTags_some]
    have : intercalComma [t] = t := rfl
    rw [this, if_neg ht.1, splitComma_no_comma t ht.2]
  | t :: u :: ts =>
    have ht := h t (List.mem_cons_self t _)
    have hic : intercalComma (t :: u :: ts) = t ++ ',' :: intercalComma (u :: ts) := rfl
    have hne : intercalComma (t :: u :: ts) ≠ [] := by
      rw [hic]
      rcases t with _ | ⟨c, t⟩
      · simp
      · simp
    rw [groupConcat_cons, rowTags_some, if_neg hne, hic,
      splitComma_append_comma t _ ht.2,
      splitComma_intercal (u :: ts) (List.cons_ne_nil u ts)
        (fun v hv => (h v (List.mem_cons_of_mem t hv)).2)]

/-!  Helper lemmas: auth, lookup, batch effects. -/

theorem checkAuth_some_admin (env : Env) :
    checkAuth env (some env.ADMIN_PASSWORD) = .ADMIN := by
  simp [checkAuth]

theorem checkAuth_some_team (env : Env) (hne : env.ADMIN_PASSWORD ≠ env.TEAM_PASSWORD) :
    checkAuth env (some env.TEAM_PASSWORD) = .TEAM := by
  unfold checkAuth
  rw [if_neg, if_pos rfl]
  intro h
  exact hne (Option.some.inj h).symm

theorem checkAuth_none (env : Env) : checkAuth env none = .GUEST := by
  simp [checkAuth]

theorem findFile_isSome {db : DB} {id : Str} :
    (findFile db id).isSome ↔ ∃ f ∈ db.files, f.id = id := by
  unfold findFile
  rw [Option.isSome_iff_exists]
  constructor
  · rintro ⟨f, hf⟩
    exact ⟨f, List.mem_of_find?_eq_some hf, by simpa using List.find?_some hf⟩
  · rintro ⟨f, hf, hid⟩
    rcases h : db.files.find? (fun g => g.id == id) with _ | g
    · rw [List.find?_eq_none] at h
      exact absurd (by simpa using hid) (h f hf)
    · exact ⟨g, h⟩

theorem findFile_mem {db : DB} {id : Str} {f : FileRow} (h : findFile db id = some f) :
    f ∈ db.files ∧ f.id = id := by
  exact ⟨List.mem_of_find?_eq_some h, by simpa using List.find?_some h⟩

theorem applyTagBatch_files (db : DB) (fid : Str) (ts : List Str) :
    (applyTagBatch db fid ts).files = db.files := rfl

theorem applyTagBatch_tags (db : DB) (fid : Str) (ts : List Str) :
    (applyTagBatch db fid ts).tags
      = db.tags.filter (fun r => !(r.file_id == fid)) ++ extraRows fid ts [] := by
  unfold applyTagBatch
  rw [foldl_insertOrIgnore, fidTags_filter_self]

theorem filter_extraRows (fid : Str) (ts seen : List Str) :
    (extraRows fid ts seen).filter (fun r => !(r.file_id == fid)) = [] := by
  rw [List.filter_eq_nil_iff]
  intro r hr
  have := extraRows_file_id fid ts seen r hr
  simp [this]

theorem db_ext (a b : DB) (hf : a.files = b.files) (ht : a.tags = b.tags) : a = b := by
  cases a; cases b; simp_all

theorem applyTagBatch_idem (db : DB) (fid : Str) (ts : List Str) :
    applyTagBatch (applyTagBatch db fid ts) fid ts = applyTagBatch db fid ts := by
  have h1 : (applyTagBatch db fid ts).tags.filter (fun r => !(r.file_id == fid))
      = db.tags.filter (fun r => !(r.file_id == fid)) := by
    rw [applyTagBatch_tags, List.filter_append, filter_extraRows, List.append_nil,
      List.filter_eq_self.mpr]
    intro r hr
    exact (List.mem_filter.mp hr).2
  refine db_ext _ _ rfl ?_
  rw [applyTagBatch_tags (applyTagBatch db fid ts), h1, applyTagBatch_tags db]

theorem searchWhere_iff {db : DB} {q : Str} (hq : noWild q = true) (f : FileRow) :
    searchWhere db q f = true ↔ FileMatches db q f := by
  unfold searchWhere FileMatches
  rw [Bool.or_eq_true, List.any_eq_true]
  constructor
  · rintro (h | ⟨r, hr, hb⟩)
    · exact Or.inl ((likeContains_iff f.filename hq).mp h)
    · rw [Bool.and_eq_true, beq_iff_eq] at hb
      exact Or.inr ⟨r, hr, hb.1, (likeContains_iff r.tag hq).mp hb.2⟩
  · rintro (h | ⟨r, hr, hfid, hsub⟩)
    · exact Or.inl ((likeContains_iff f.filename hq).mpr h)
    · refine Or.inr ⟨r, hr, ?_⟩
      rw [Bool.and_eq_true, beq_iff_eq]
      exact ⟨hfid, (likeContains_iff r.tag hq).mpr hsub⟩

theorem searchWhere_empty (db : DB) (f : FileRow) : searchWhere db [] f = true := by
  unfold searchWhere
  rw [likeContains_nil, Bool.true_or]

theorem foldl_insertOrIgnore_lower (fid : Str) (ts : List Str) (acc : List TagRow) :
    ts.foldl (fun a t => insertOrIgnoreTag a fid (lowerStr t)) acc
      = acc ++ extraRows fid (ts.map lowerStr) (fidTags acc fid) :=
  calc ts.foldl (fun a t => insertOrIgnoreTag a fid (lowerStr t)) acc
      = (ts.map lowerStr).foldl (fun a t => insertOrIgnoreTag a fid t) acc :=
        (List.foldl_map _ _ _ _).symm
    _ = acc ++ extraRows fid (ts.map lowerStr) (fidTags acc fid) :=
        foldl_insertOrIgnore _ _ _

/-!  The claims. -/

/-- C1, counterexample: the notification-bridge handler does not acknowledge
success on every internal failure.  On a text-message payload, a thrown search
step (and likewise a thrown outbound send) lands in the `catch` block, which
answers 500 `{ok:false}`, not the success acknowledgement. -/
theorem c1_counterexample :
    telegramWebhook (.ok ⟨some ⟨0, some ['a']⟩⟩) (.error ()) (.ok ()) = TgResp.okFalse500
    ∧ telegramWebhook (.ok ⟨some ⟨0, some ['a']⟩⟩) (.ok []) (.error ()) = TgResp.okFalse500
    ∧ TgResp.okFalse500 ≠ TgResp.okTrue := by
  exact ⟨rfl, rfl, by decide⟩

/-- C1, amended: the webhook acknowledges success exactly when the body parsed
and either the payload has no nonempty text message (no work is attempted) or
both the search query and the outbound send completed without throwing; in
every other case it answers the 500 `{ok:false}` failure response. -/
theorem c1_webhook_ack (parsed : Except Unit TgUpdate)
    (searchRes : Except Unit (List FileRow)) (sendRes : Except Unit Unit) :
    (telegramWebhook parsed searchRes sendRes = TgResp.okTrue ↔
      ∃ u, parsed = .ok u ∧
        (hasTextBody u = false ∨ ((∃ rows, searchRes = .ok rows) ∧ sendRes = .ok ())))
    ∧ (telegramWebhook parsed searchRes sendRes = TgResp.okTrue
       ∨ telegramWebhook parsed searchRes sendRes = TgResp.okFalse500) := by
  constructor
  · cases parsed with
    | error e => simp [telegramWebhook]
    | ok u =>
      cases hm : u.message with
      | none => simp [telegramWebhook, hm, hasTextBody]
      | some m =>
        cases ht : m.text with
        | none => simp [telegramWebhook, hm, ht, hasTextBody]
        | some t =>
          by_cases hte : t.isEmpty = true
          · simp [telegramWebhook, hm, ht, hasTextBody, hte]
          · rw [Bool.not_eq_true] at hte
            cases searchRes with
            | error e => simp [telegramWebhook, hm, ht, hasTextBody, hte]
            | ok rows =>
              cases sendRes with
              | error e => simp [telegramWebhook, hm, ht, hasTextBody, hte]
              | ok uu =>
                cases uu
                simp [telegramWebhook, hm, ht, hasTextBody, hte]
  · cases h : telegramWebhook parsed searchRes sendRes
    · exact Or.inl rfl
    · exact Or.inr rfl

/-- C2, counterexample: on the spec's own example input `["  Foo", "foo", ""]`
the handler returns the sanitized list with its duplicate kept,
`["foo", "foo"]`, while the stored tag set is the deduplicated `["foo"]` —
the returned list is not the stored set and is not `["foo"]`. -/
theorem c2_counterexample :
    c2run.1 = PatchResp.ok ["foo".toList, "foo".toList]
    ∧ tagsOf c2run.2 "f1".toList = ["foo".toList]
    ∧ (["foo".toList, "foo".toList] : List Str) ≠ ["foo".toList] := by
  decide

/-- C2, amended: tag-replace returns the input tags trimmed, lowercased and
with empty strings dropped, duplicates included; the stored tag set is that
list deduplicated by the unique-pair insert, so the stored set has no
duplicates and holds exactly the returned list's elements. -/
theorem c2_tag_replace_returns (env : Env) (db : DB) (cookie : Option Str)
    (id : Str) (tagsArray : List Str)
    (hAuth : authLT (checkAuth env cookie) .ADMIN = false)
    (hex : (findFile db id).isSome) :
    (patchTagsEndpoint env db cookie id (some tagsArray)).1
      = .ok (sanitizeTags tagsArray)
    ∧ (tagsOf (patchTagsEndpoint env db cookie id (some tagsArray)).2 id).Nodup
    ∧ (∀ t, t ∈ tagsOf (patchTagsEndpoint env db cookie id (some tagsArray)).2 id
        ↔ t ∈ sanitizeTags tagsArray) := by
  obtain ⟨f, hf⟩ := Option.isSome_iff_exists.mp hex
  have hrun : patchTagsEndpoint env db cookie id (some tagsArray)
      = (.ok (sanitizeTags tagsArray), applyTagBatch db id (sanitizeTags tagsArray)) := by
    simp [patchTagsEndpoint, hAuth, hf]
  rw [hrun]
  refine ⟨rfl, ?_, ?_⟩
  · show (tagsOf (applyTagBatch db id (sanitizeTags tagsArray)) id).Nodup
    rw [tagsOf_applyTagBatch]
    exact nodup_dedupAcc _ _
  · intro t
    show t ∈ tagsOf (applyTagBatch db id (sanitizeTags tagsArray)) id ↔ _
    rw [tagsOf_applyTagBatch, mem_dedupAcc]
    simp

/-- Witness for C2 at the spec's example: admin cookie, existing file `f1`,
input `["  Foo", "foo", ""]`. -/
theorem c2_tag_replace_returns_witness :
    (patchTagsEndpoint envW dbW (some "admin".toList) "f1".toList (some c2input)).1
      = .ok (sanitizeTags c2input)
    ∧ (tagsOf (patchTagsEndpoint envW dbW (some "admin".toList) "f1".toList
        (some c2input)).2 "f1".toList).Nodup
    ∧ (∀ t, t ∈ tagsOf (patchTagsEndpoint envW dbW (some "admin".toList) "f1".toList
        (some c2input)).2 "f1".toList ↔ t ∈ sanitizeTags c2input) :=
  c2_tag_replace_returns envW dbW (some "admin".toList) "f1".toList c2input
    (by decide) (by decide)

/-- C6: the resolver maps the admin secret to `ADMIN`, the team secret to
`TEAM`, anything else (including no credential) to `GUEST`; hence an admin
cookie passes the `TEAM`-gated search, a team cookie is refused 403 at the
`ADMIN`-gated tag replace, and no credential is refused 401 at the search. -/
theorem c6_auth_resolver (env : Env) (hne : env.ADMIN_PASSWORD ≠ env.TEAM_PASSWORD) :
    (∀ t, checkAuth env t = .ADMIN ↔ t = some env.ADMIN_PASSWORD)
    ∧ (∀ t, checkAuth env t = .TEAM ↔ t = some env.TEAM_PASSWORD)
    ∧ (∀ t, t ≠ some env.ADMIN_PASSWORD → t ≠ some env.TEAM_PASSWORD →
        checkAuth env t = .GUEST)
    ∧ (∀ db q, searchEndpoint env db (some env.ADMIN_PASSWORD) q
        = .ok (searchResults db q))
    ∧ (∀ db id payload,
        patchTagsEndpoint env db (some env.TEAM_PASSWORD) id payload = (.forbidden, db))
    ∧ (∀ db q, searchEndpoint env db none q = .unauthorized) := by
  refine ⟨?_, ?_, ?_, ?_, ?_, ?_⟩
  · intro t
    by_cases h1 : t = some env.ADMIN_PASSWORD
    · simp [checkAuth, h1]
    · by_cases h2 : t = some env.TEAM_PASSWORD <;> simp [checkAuth, h1, h2]
  · intro t
    by_cases h1 : t = some env.ADMIN_PASSWORD
    · subst h1
      rw [checkAuth_some_admin]
      exact iff_of_false (by decide) (fun h => hne (Option.some.inj h))
    · by_cases h2 : t = some env.TEAM_PASSWORD
      · subst h2
        rw [checkAuth_some_team env hne]
        simp
      · simp [checkAuth, h1, h2]
  · intro t h1 h2
    simp [checkAuth, h1, h2]
  · intro db q
    simp [searchEndpoint, checkAuth_some_admin, authLT, AuthLevel.toNat]
  · intro db id payload
    simp [patchTagsEndpoint, checkAuth_some_team env hne, authLT, AuthLevel.toNat]
  · intro db q
    simp [searchEndpoint, checkAuth_none, authLT, AuthLevel.toNat]

/-- Witness for C6 at the concrete environment `envW`. -/
theorem c6_auth_resolver_witness :
    (∀ t, checkAuth envW t = .ADMIN ↔ t = some envW.ADMIN_PASSWORD)
    ∧ (∀ t, checkAuth envW t = .TEAM ↔ t = some envW.TEAM_PASSWORD)
    ∧ (∀ t, t ≠ some envW.ADMIN_PASSWORD → t ≠ some envW.TEAM_PASSWORD →
        checkAuth envW t = .GUEST)
    ∧ (∀ db q, searchEndpoint envW db (some envW.ADMIN_PASSWORD) q
        = .ok (searchResults db q))
    ∧ (∀ db id payload,
        patchTagsEndpoint envW db (some envW.TEAM_PASSWORD) id payload = (.forbidden, db))
    ∧ (∀ db q, searchEndpoint envW db none q = .unauthorized) :=
  c6_auth_resolver envW (by decide)

/-- C7: tag-replace refuses a caller below `ADMIN` with 403, an `ADMIN` caller
with a non-array tags payload with 400, and an `ADMIN` caller naming a missing
file with 404; in each failure the database — in particular every file's
stored tag rows — is returned unchanged. -/
theorem c7_patch_failures (env : Env) (db : DB) (cookie : Option Str) (id : Str)
    (payload : Option (List Str)) :
    (authLT (checkAuth env cookie) .ADMIN = true →
      patchTagsEndpoint env db cookie id payload = (.forbidden, db))
    ∧ (authLT (checkAuth env cookie) .ADMIN = false → payload = none →
      patchTagsEndpoint env db cookie id payload = (.badRequest, db))
    ∧ (∀ ts, authLT (checkAuth env cookie) .ADMIN = false → payload = some ts →
      findFile db id = none →
      patchTagsEndpoint env db cookie id payload = (.notFound, db)) := by
  refine ⟨fun h => ?_, fun h hp => ?_, fun ts h hp hf => ?_⟩
  · simp [patchTagsEndpoint, h]
  · subst hp
    simp [patchTagsEndpoint, h]
  · subst hp
    simp [patchTagsEndpoint, h, hf]

/-- Witness for C7: a team cookie gets 403, an admin cookie with a non-array
payload gets 400, an admin cookie on a missing id gets 404, each leaving the
database unchanged. -/
theorem c7_patch_failures_witness :
    patchTagsEndpoint envW dbW (some "team".toList) "f1".toList (some [])
      = (.forbidden, dbW)
    ∧ patchTagsEndpoint envW dbW (some "admin".toList) "f1".toList none
      = (.badRequest, dbW)
    ∧ patchTagsEndpoint envW dbW (some "admin".toList) "zz".toList (some ["x".toList])
      = (.notFound, dbW) :=
  ⟨(c7_patch_failures envW dbW (some "team".toList) "f1".toList (some [])).1 (by decide),
   (c7_patch_failures envW dbW (some "admin".toList) "f1".toList none).2.1
     (by decide) rfl,
   (c7_patch_failures envW dbW (some "admin".toList) "zz".toList
     (some ["x".toList])).2.2 ["x".toList] (by decide) rfl (by decide)⟩

/-- C8: tag-replace is idempotent — replaying the same payload on the state
the first call produced returns the same response and the same database, and
the stored tag set after the first call already holds exactly the sanitized
input tags. -/
theorem c8_tag_replace_idempotent (env : Env) (db : DB) (cookie : Option Str)
    (id : Str) (S : List Str)
    (hAuth : authLT (checkAuth env cookie) .ADMIN = false)
    (hex : (findFile db id).isSome) :
    patchTagsEndpoint env (patchTagsEndpoint env db cookie id (some S)).2 cookie id (some S)
      = patchTagsEndpoint env db cookie id (some S)
    ∧ (∀ t, t ∈ tagsOf (patchTagsEndpoint env db cookie id (some S)).2 id
        ↔ t ∈ sanitizeTags S) := by
  obtain ⟨f, hf⟩ := Option.isSome_iff_exists.mp hex
  have hrun : patchTagsEndpoint env db cookie id (some S)
      = (.ok (sanitizeTags S), applyTagBatch db id (sanitizeTags S)) := by
    simp [patchTagsEndpoint, hAuth, hf]
  have hf2 : findFile (applyTagBatch db id (sanitizeTags S)) id = some f := hf
  have hrun2 : patchTagsEndpoint env (applyTagBatch db id (sanitizeTags S)) cookie id (some S)
      = (.ok (sanitizeTags S),
         applyTagBatch (applyTagBatch db id (sanitizeTags S)) id (sanitizeTags S)) := by
    simp [patchTagsEndpoint, hAuth, hf2]
  constructor
  · rw [hrun]
    show patchTagsEndpoint env (applyTagBatch db id (sanitizeTags S)) cookie id (some S)
        = (.ok (sanitizeTags S), applyTagBatch db id (sanitizeTags S))
    rw [hrun2, applyTagBatch_idem]
  · intro t
    rw [hrun]
    show t ∈ tagsOf (applyTagBatch db id (sanitizeTags S)) id ↔ _
    rw [tagsOf_applyTagBatch, mem_dedupAcc]
    simp

/-- Witness for C8: replacing `f1`'s tags twice with the same payload. -/
theorem c8_tag_replace_idempotent_witness :
    patchTagsEndpoint envW
        (patchTagsEndpoint envW dbW (some "admin".toList) "f1".toList (some c2input)).2
        (some "admin".toList) "f1".toList (some c2input)
      = patchTagsEndpoint envW dbW (some "admin".toList) "f1".toList (some c2input)
    ∧ (∀ t, t ∈ tagsOf (patchTagsEndpoint envW dbW (some "admin".toList) "f1".toList
        (some c2input)).2 "f1".toList ↔ t ∈ sanitizeTags c2input) :=
  c8_tag_replace_idempotent envW dbW (some "admin".toList) "f1".toList c2input
    (by decide) (by decide)

/-- C9: referential integrity — every tag row referencing an existing file
row — is preserved by the three state-changing operations: upload inserts the
file row and its tag rows in one batch, tag-replace only inserts rows for a
file it has just verified, and delete removes a file's tag rows with the file
row. -/
theorem c9_referential_integrity (env : Env) (db : DB) (bucket : Bucket)
    (cookie : Option Str) (hRI : RefIntegrity db) :
    (∀ file tagsStr fileId now,
      RefIntegrity (uploadEndpoint env db bucket cookie file tagsStr fileId now).2.1)
    ∧ (∀ id payload, RefIntegrity (patchTagsEndpoint env db cookie id payload).2)
    ∧ (∀ id, RefIntegrity (deleteEndpoint env db bucket cookie id).2.1) := by
  refine ⟨?_, ?_, ?_⟩
  · intro file tagsStr fileId now
    by_cases hA : authLT (checkAuth env cookie) .ADMIN = true
    · simp only [uploadEndpoint, hA, if_true]
      exact hRI
    · rw [Bool.not_eq_true] at hA
      cases file with
      | none =>
        simp only [uploadEndpoint, hA, Bool.false_eq_true, if_false]
        exact hRI
      | some f =>
        by_cases hdup : db.files.any (fun g => g.id == fileId) = true
        · simp only [uploadEndpoint, hA, Bool.false_eq_true, if_false, hdup, if_true]
          exact hRI
        · rw [Bool.not_eq_true] at hdup
          simp only [uploadEndpoint, hA, Bool.false_eq_true, if_false, hdup]
          intro r hr
          rw [foldl_insertOrIgnore_lower] at hr
          rcases List.mem_append.mp hr with hr | hr
          · obtain ⟨g, hg, hgid⟩ := hRI r hr
            exact ⟨g, List.mem_append_left _ hg, hgid⟩
          · have hfid := extraRows_file_id _ _ _ r hr
            exact ⟨⟨fileId, f.name, fileId, f.size, now⟩,
              List.mem_append_right _ (List.mem_singleton_self _), hfid.symm⟩
  · intro id payload
    by_cases hA : authLT (checkAuth env cookie) .ADMIN = true
    · simp only [patchTagsEndpoint, hA, if_true]
      exact hRI
    · rw [Bool.not_eq_true] at hA
      cases payload with
      | none =>
        simp only [patchTagsEndpoint, hA, Bool.false_eq_true, if_false]
        exact hRI
      | some ts =>
        cases hf : findFile db id with
        | none =>
          simp only [patchTagsEndpoint, hA, Bool.false_eq_true, if_false, hf]
          exact hRI
        | some f =>
          simp only [patchTagsEndpoint, hA, Bool.false_eq_true, if_false, hf]
          intro r hr
          rw [applyTagBatch_tags] at hr
          rw [applyTagBatch_files]
          rcases List.mem_append.mp hr with hr | hr
          · exact hRI r (List.mem_of_mem_filter hr)
          · have hfid := extraRows_file_id _ _ _ r hr
            obtain ⟨hmem, hid⟩ := findFile_mem hf
            exact ⟨f, hmem, by rw [hid, hfid]⟩
  · intro id
    by_cases hA : authLT (checkAuth env cookie) .ADMIN = true
    · simp only [deleteEndpoint, hA, if_true]
      exact hRI
    · rw [Bool.not_eq_true] at hA
      cases hf : findFile db id with
      | none =>
        simp only [deleteEndpoint, hA, Bool.false_eq_true, if_false, hf]
        exact hRI
      | some file =>
        simp only [deleteEndpoint, hA, Bool.false_eq_true, if_false, hf]
        intro r hr
        rw [List.mem_filter] at hr
        obtain ⟨hrmem, hrneq⟩ := hr
        obtain ⟨g, hg, hgid⟩ := hRI r hrmem
        refine ⟨g, ?_, hgid⟩
        rw [List.mem_filter]
        refine ⟨hg, ?_⟩
        rw [show g.id = r.file_id from hgid]
        exact hrneq

/-- Witness for C9: the one-file database `dbW` satisfies the invariant, so
every operation applied to it does too. -/
theorem c9_referential_integrity_witness :
    (∀ file tagsStr fileId now,
      RefIntegrity (uploadEndpoint envW dbW [] none file tagsStr fileId now).2.1)
    ∧ (∀ id payload, RefIntegrity (patchTagsEndpoint envW dbW none id payload).2)
    ∧ (∀ id, RefIntegrity (deleteEndpoint envW dbW [] none id).2.1) :=
  c9_referential_integrity envW dbW [] none (by decide)

/-- C10: on the delivery path, presenting the admin secret as `?token=` with
no cookie is refused with 401 — the URL-token branch compares against the team
secret only — although the same admin secret presented as a cookie is accepted
on that path. -/
theorem c10_admin_token_rejected (env : Env) (db : DB) (bucket : Bucket)
    (cached : Option Str) (id : Str) (hne : env.ADMIN_PASSWORD ≠ env.TEAM_PASSWORD) :
    getFileEndpoint env db bucket none (some env.ADMIN_PASSWORD) cached id
      = .unauthorized
    ∧ getFileEndpoint env db bucket (some env.ADMIN_PASSWORD) none cached id
      ≠ .unauthorized := by
  constructor
  · have hng : ¬ (some env.ADMIN_PASSWORD = some env.TEAM_PASSWORD) :=
      fun h => hne (Option.some.inj h)
    simp [getFileEndpoint, checkAuth_none, authGE, AuthLevel.toNat, hng]
  · cases cached with
    | some b =>
      simp [getFileEndpoint, checkAuth_some_admin, authGE, AuthLevel.toNat]
    | none =>
      cases hf : findFile db id with
      | none =>
        simp [getFileEndpoint, checkAuth_some_admin, authGE, AuthLevel.toNat, hf]
      | some f =>
        cases hb : bucketGet bucket f.r2_key with
        | none =>
          simp [getFileEndpoint, checkAuth_some_admin, authGE, AuthLevel.toNat, hf, hb]
        | some o =>
          simp [getFileEndpoint, checkAuth_some_admin, authGE, AuthLevel.toNat, hf, hb]

/-- Witness for C10 at the concrete environment `envW`. -/
theorem c10_admin_token_rejected_witness :
    getFileEndpoint envW dbW [] none (some envW.ADMIN_PASSWORD) none "f1".toList
      = .unauthorized
    ∧ getFileEndpoint envW dbW [] (some envW.ADMIN_PASSWORD) none none "f1".toList
      ≠ .unauthorized :=
  c10_admin_token_rejected envW dbW [] none "f1".toList (by decide)

/-- C5, counterexample: the handler consults the shared request-URL cache
before the index, so an authorized request (valid `?token=`) for an id absent
from the index is answered from a cache entry, not with `NotFound`. -/
theorem c5_counterexample :
    getFileEndpoint envW ⟨[], []⟩ [] none (some "team".toList) (some "x".toList)
        "id1".toList
      = .cached "x".toList
    ∧ FileResp.cached "x".toList ≠ FileResp.notFound := by
  decide

/-- C5, amended: the request is refused 401 exactly when neither the cookie
resolves to `TEAM` or above nor `?token=` equals the team secret; and —
provided the shared cache holds no response for the request URL — an
authorized request is answered `NotFound` both when the id is absent from the
index and when the resolved storage key is absent from the blob store, the two
absences being indistinguishable to the caller. -/
theorem c5_delivery_auth_lookup (env : Env) (db : DB) (bucket : Bucket)
    (cookie urlToken : Option Str) (id : Str) :
    (getFileEndpoint env db bucket cookie urlToken none id = .unauthorized ↔
      ¬ (authGE (checkAuth env cookie) .TEAM = true ∨ urlToken = some env.TEAM_PASSWORD))
    ∧ ((authGE (checkAuth env cookie) .TEAM = true ∨ urlToken = some env.TEAM_PASSWORD) →
        findFile db id = none →
        getFileEndpoint env db bucket cookie urlToken none id = .notFound)
    ∧ ((authGE (checkAuth env cookie) .TEAM = true ∨ urlToken = some env.TEAM_PASSWORD) →
        ∀ f, findFile db id = some f → bucketGet bucket f.r2_key = none →
        getFileEndpoint env db bucket cookie urlToken none id = .notFound) := by
  by_cases hA : authGE (checkAuth env cookie) .TEAM = true
  · refine ⟨?_, fun _ hf => ?_, fun _ f hf hb => ?_⟩
    · apply iff_of_false
      · cases hf : findFile db id with
        | none => simp [getFileEndpoint, hA, hf]
        | some f =>
          cases hb : bucketGet bucket f.r2_key with
          | none => simp [getFileEndpoint, hA, hf, hb]
          | some o => simp [getFileEndpoint, hA, hf, hb]
      · intro h
        exact h (Or.inl hA)
    · simp [getFileEndpoint, hA, hf]
    · simp [getFileEndpoint, hA, hf, hb]
  · rw [Bool.not_eq_true] at hA
    by_cases hT : urlToken = some env.TEAM_PASSWORD
    · refine ⟨?_, fun _ hf => ?_, fun _ f hf hb => ?_⟩
      · apply iff_of_false
        · cases hf : findFile db id with
          | none => simp [getFileEndpoint, hA, hT, hf]
          | some f =>
            cases hb : bucketGet bucket f.r2_key with
            | none => simp [getFileEndpoint, hA, hT, hf, hb]
            | some o => simp [getFileEndpoint, hA, hT, hf, hb]
        · intro h
          exact h (Or.inr hT)
      · simp [getFileEndpoint, hA, hT, hf]
      · simp [getFileEndpoint, hA, hT, hf, hb]
    · refine ⟨?_, fun hor _ => ?_, fun hor f _ _ => ?_⟩
      · apply iff_of_true
        · simp [getFileEndpoint, hA, hT]
        · rintro (h | h)
          · rw [hA] at h; cases h
          · exact hT h
      · rcases hor with h | h
        · rw [hA] at h; cases h
        · exact absurd h hT
      · rcases hor with h | h
        · rw [hA] at h; cases h
        · exact absurd h hT

/-- Witness for C5: a token-authorized request for a missing id, a
token-authorized request whose blob is missing, and an uncredentialed request,
on concrete states. -/
theorem c5_delivery_auth_lookup_witness :
    getFileEndpoint envW ⟨[], []⟩ [] none (some "team".toList) none "id1".toList
      = .notFound
    ∧ getFileEndpoint envW dbW [] none (some "team".toList) none "f1".toList
      = .notFound
    ∧ getFileEndpoint envW dbW [] none none none "f1".toList = .unauthorized :=
  ⟨(c5_delivery_auth_lookup envW ⟨[], []⟩ [] none (some "team".toList)
      "id1".toList).2.1 (Or.inr rfl) (by decide),
   (c5_delivery_auth_lookup envW dbW [] none (some "team".toList)
      "f1".toList).2.2 (Or.inr rfl) ⟨"f1".toList, "Report".toList, "f1".toList, 3, 5⟩
      (by decide) (by decide),
   ((c5_delivery_auth_lookup envW dbW [] none none "f1".toList).1).mpr (by decide)⟩

/-- C4: the search result list has at most 50 rows, is ordered by creation
timestamp descending, repeats no file id (files are deduplicated even when
several tags match), and on the empty query consists of the 50 most recently
created files: every file is either in the results or the results are full
with 50 rows all at least as recent as it. -/
theorem c4_search_shape (db : DB) (q : Str)
    (hids : (db.files.map (fun f => f.id)).Nodup) :
    (searchResults db q).length ≤ 50
    ∧ List.Sorted (fun a b => b ≤ a)
        ((searchResults db q).map (fun row => row.created_at))
    ∧ ((searchResults db q).map (fun row => row.id)).Nodup
    ∧ (q = [] → ∀ f ∈ db.files,
        (∃ row ∈ searchResults db q, row.id = f.id)
        ∨ ((searchResults db q).length = 50
            ∧ ∀ row ∈ searchResults db q, f.created_at ≤ row.created_at)) := by
  refine ⟨?_, ?_, ?_, ?_⟩
  · unfold searchResults
    rw [List.length_map]
    exact List.length_take_le 50 _
  · have hsorted : List.Sorted createdDesc
        ((db.files.filter (searchWhere db q)).insertionSort createdDesc) :=
      List.sorted_insertionSort createdDesc _
    have htake := List.Pairwise.sublist (List.take_sublist 50 _) hsorted
    have hmap : List.Pairwise (fun a b => b ≤ a)
        ((((db.files.filter (searchWhere db q)).insertionSort createdDesc).take 50).map
          (fun f => f.created_at)) :=
      List.Pairwise.map (fun f : FileRow => f.created_at) (fun _ _ h => h) htake
    unfold searchResults
    rw [List.map_map]
    exact hmap
  · have n1 : ((db.files.filter (searchWhere db q)).map (fun f => f.id)).Nodup :=
      ((List.filter_sublist _).map _).nodup hids
    have n2 : (((db.files.filter (searchWhere db q)).insertionSort createdDesc).map
        (fun f => f.id)).Nodup :=
      (((List.perm_insertionSort createdDesc _).map _).nodup_iff).mpr n1
    have n3 : ((((db.files.filter (searchWhere db q)).insertionSort createdDesc).take 50).map
        (fun f => f.id)).Nodup :=
      ((List.take_sublist 50 _).map _).nodup n2
    unfold searchResults
    rw [List.map_map]
    exact n3
  · intro hq f hf
    subst hq
    have hfe : db.files.filter (searchWhere db []) = db.files :=
      List.filter_eq_self.mpr (fun g _ => searchWhere_empty db g)
    have hres : searchResults db []
        = ((db.files.insertionSort createdDesc).take 50).map (toSearchRow db) := by
      unfold searchResults
      rw [hfe]
    have hfS : f ∈ db.files.insertionSort createdDesc :=
      (List.mem_insertionSort _).mpr hf
    by_cases hin : f ∈ (db.files.insertionSort createdDesc).take 50
    · left
      refine ⟨toSearchRow db f, ?_, rfl⟩
      rw [hres]
      exact List.mem_map_of_mem _ hin
    · right
      have hdrop : f ∈ (db.files.insertionSort createdDesc).drop 50 := by
        have hsplit := List.take_append_drop 50 (db.files.insertionSort createdDesc)
        have hm := hfS
        rw [← hsplit] at hm
        rcases List.mem_append.mp hm with h | h
        · exact absurd h hin
        · exact h
      have hlen : 50 ≤ (db.files.insertionSort createdDesc).length := by
        by_contra hlt
        push_neg at hlt
        rw [List.drop_eq_nil_of_le (Nat.le_of_lt hlt)] at hdrop
        cases hdrop
      constructor
      · rw [hres, List.length_map, List.length_take]
        exact min_eq_left hlen
      · intro row hrow
        rw [hres] at hrow
        obtain ⟨g, hg, rfl⟩ := List.mem_map.mp hrow
        have hsorted := List.sorted_insertionSort createdDesc db.files
        have hsplit := List.take_append_drop 50 (db.files.insertionSort createdDesc)
        rw [← hsplit] at hsorted
        exact (List.pairwise_append.mp hsorted).2.2 g hg f hdrop

/-- Witness for C4 on a concrete one-file database with the empty query. -/
theorem c4_search_shape_witness :
    (searchResults dbW []).length ≤ 50
    ∧ List.Sorted (fun a b => b ≤ a)
        ((searchResults dbW []).map (fun row => row.created_at))
    ∧ ((searchResults dbW []).map (fun row => row.id)).Nodup
    ∧ (([] : Str) = [] → ∀ f ∈ dbW.files,
        (∃ row ∈ searchResults dbW [], row.id = f.id)
        ∨ ((searchResults dbW []).length = 50
            ∧ ∀ row ∈ searchResults dbW [], f.created_at ≤ row.created_at)) :=
  c4_search_shape dbW [] (by decide)

/-- C3, counterexample: results do not always carry the file's full tag set.
On a file whose sole stored tag is `a,b`, the handler's comma-splitting of the
`GROUP_CONCAT` aggregate reports the tags as `a` and `b`, neither of which is
a stored tag of the file. -/
theorem c3_counterexample :
    ¬ (∀ row ∈ searchResults dbC3 [], ∀ t, t ∈ row.tags ↔ t ∈ tagsOf dbC3 row.id) := by
  intro h
  have hrow : rowC3 ∈ searchResults dbC3 [] := by decide
  have := (h rowC3 hrow "a".toList).mp (by decide)
  exact absurd this (by decide)

/-- C3, amended: for a wildcard-free query, a file appears in the results if
and only if its filename or one of its tags contains the query as a substring
under the store's case folding — provided at most 50 files match (beyond that
only the 50 most recent matches appear) — and every returned row carries the
file's full stored tag set provided no stored tag is empty or contains a
comma (the response rebuilds the set by splitting a comma-joined aggregate). -/
theorem c3_search_semantics (db : DB) (q : Str)
    (hq : noWild q = true)
    (hids : (db.files.map (fun f => f.id)).Nodup)
    (htags : ∀ r ∈ db.tags, r.tag ≠ [] ∧ (',' : Char) ∉ r.tag)
    (hcap : (db.files.filter (searchWhere db q)).length ≤ 50) :
    (∀ f ∈ db.files,
      ((∃ row ∈ searchResults db q, row.id = f.id) ↔ FileMatches db q f))
    ∧ (∀ row ∈ searchResults db q, row.tags = tagsOf db row.id) := by
  have hlen : ((db.files.filter (searchWhere db q)).insertionSort createdDesc).length ≤ 50 := by
    rw [(List.perm_insertionSort createdDesc _).length_eq]
    exact hcap
  have hres : searchResults db q
      = ((db.files.filter (searchWhere db q)).insertionSort createdDesc).map
          (toSearchRow db) := by
    unfold searchResults
    rw [List.take_of_length_le hlen]
  constructor
  · intro f hf
    constructor
    · rintro ⟨row, hrow, hid⟩
      rw [hres] at hrow
      obtain ⟨g, hg, rfl⟩ := List.mem_map.mp hrow
      obtain ⟨hgmem, hgw⟩ := List.mem_filter.mp ((List.mem_insertionSort _).mp hg)
      have hgid : g.id = f.id := hid
      have hgf : g = f := List.inj_on_of_nodup_map hids hgmem hf hgid
      exact (searchWhere_iff hq f).mp (hgf ▸ hgw)
    · intro hm
      have hw : searchWhere db q f = true := (searchWhere_iff hq f).mpr hm
      have hf3 : f ∈ (db.files.filter (searchWhere db q)).insertionSort createdDesc :=
        (List.mem_insertionSort _).mpr (List.mem_filter.mpr ⟨hf, hw⟩)
      refine ⟨toSearchRow db f, ?_, rfl⟩
      rw [hres]
      exact List.mem_map_of_mem _ hf3
  · intro row hrow
    rw [hres] at hrow
    obtain ⟨g, hg, rfl⟩ := List.mem_map.mp hrow
    show rowTags (groupConcat (tagsOf db g.id)) = tagsOf db (toSearchRow db g).id
    refine rowTags_groupConcat _ ?_
    intro t ht
    obtain ⟨r, hr, _, rfl⟩ := mem_fidTags.mp ht
    exact htags r hr

/-- Witness for C3 on a concrete database and the query `port`, which matches
the filename `Report` case-insensitively. -/
theorem c3_search_semantics_witness :
    (∀ f ∈ dbW.files,
      ((∃ row ∈ searchResults dbW "port".toList, row.id = f.id)
        ↔ FileMatches dbW "port".toList f))
    ∧ (∀ row ∈ searchResults dbW "port".toList, row.tags = tagsOf dbW row.id) :=
  c3_search_semantics dbW "port".toList (by decide) (by decide) (by decide) (by decide)

end DocSearch
